import Mathlib

/-!
Shallow embedding of `avclass/update.py` (class `Update`): the relation
classifier and fixed-point updater that maintain the taxonomy, translation
(tagging) and expansion knowledge bases.

Conventions of the embedding:
* Tags are `String`s.  A taxonomy path `"FAM:upatre"` is modelled as the
  list of its `:`-separated components `["FAM", "upatre"]`; the tag of an
  entry is the last component and its category is read off the first
  component, so `p[0:p.rfind(':')]` becomes `List.dropLast` and
  `'%s:%s' % (p, t)` becomes `p ++ [t]`.
* The three stores are association lists; `store_get` returns `[]` for an
  absent key exactly like `get_dst` in the source returns an empty list.
* Occurrence counts (`t1_num`, `t2_num` fields) are modelled as `ℕ`,
  parsed at the load boundary; the source keeps the raw tab-separated
  strings and compares those strings directly in `add_alias`.
* Ratios (`talias_num`, `tinv_alias_num`) and the threshold `t` are `ℚ`;
  the source parses them with `float(...)` at each comparison.
* `process_relation` in the source reads the module-level name `args.t`
  for the threshold; `args` is a local variable of `main()`, so that read
  raises `NameError` at run time.  The functional embedding below takes
  the threshold as the explicit parameter `t` (the value stored as
  `self._t` by the constructor, which `main()` also sets from the CLI);
  `process_relation_asWritten` models the as-written global read.
-/

/-- Taxonomy categories.  The source compares category strings
`"UNK" | "FAM" | "CLASS" | "BEH" | "FILE"`. -/
inductive Cat where
  | UNK
  | FAM
  | CLASS
  | BEH
  | FILE
deriving DecidableEq

/-- A taxonomy path, e.g. `["FAM", "upatre"]` for `FAM:upatre`. -/
abbrev TaxPath := List String

/-- Category encoded by the first component of a path. -/
def catOfHead : String → Cat
  | "FAM" => Cat.FAM
  | "CLASS" => Cat.CLASS
  | "BEH" => Cat.BEH
  | "FILE" => Cat.FILE
  | _ => Cat.UNK

/-- Category of a full path. -/
def catOf (p : TaxPath) : Cat := catOfHead (p.headD "UNK")

/-- The `Relation` namedtuple of the source:
`(t1, t2, t1_num, t2_num, nalias_num, talias_num, tinv_alias_num)`.
Counts are parsed to `ℕ` and ratios to `ℚ` at the model boundary;
equality is by all seven fields, as in the source. -/
structure Relation where
  t1 : String
  t2 : String
  t1_num : ℕ
  t2_num : ℕ
  nalias_num : ℕ
  talias_num : ℚ
  tinv_alias_num : ℚ
deriving DecidableEq

/-- Modelled from the spec: the taxonomy store of `avclass.common`
(`Taxonomy`, not under `src/`) is a finite collection of path-qualified
entries, each tag appearing under exactly one path.  We keep the list of
paths; the tag of an entry is the last path component. -/
abbrev Taxonomy := List TaxPath

/-- The tag named by a taxonomy entry (last path component). -/
def tagOf (p : TaxPath) : String := p.getLastD ""

/-- Modelled from the spec: `Taxonomy` lookup of the entry for a tag. -/
def tax_lookup (tax : Taxonomy) (tag : String) : Option TaxPath :=
  tax.find? (fun p => tagOf p = tag)

/-- Modelled from the spec: `get_info(tag) -> (path, Category)`; a tag
absent from the taxonomy has category `UNK` and the `UNK:`-qualified
path. -/
def get_info (tax : Taxonomy) (tag : String) : TaxPath × Cat :=
  match tax_lookup tax tag with
  | some p => (p, catOf p)
  | none => (["UNK", tag], Cat.UNK)

/-- Modelled from the spec: `get_category(tag) -> Category`. -/
def get_category (tax : Taxonomy) (tag : String) : Cat :=
  (get_info tax tag).2

/-- Modelled from the spec: `get_path(tag) -> string`. -/
def get_path (tax : Taxonomy) (tag : String) : TaxPath :=
  (get_info tax tag).1

/-- Modelled from the spec: `overlaps(a, b)` is true when the taxonomy
records both tags and one entry is an ancestor/descendant of the other
(path components related by the prefix order, equal paths included). -/
def overlaps (tax : Taxonomy) (a b : String) : Bool :=
  match tax_lookup tax a, tax_lookup tax b with
  | some pa, some pb => pa.isPrefixOf pb || pb.isPrefixOf pa
  | _, _ => false

/-- Modelled from the spec: `Taxonomy.add_tag(path)`; a tag appears under
exactly one path, so any previous entry for the same tag is replaced. -/
def tax_add_tag (tax : Taxonomy) (path : TaxPath) : Taxonomy :=
  path :: tax.filter (fun p => tagOf p ≠ tagOf path)

/-- Modelled from the spec: `Taxonomy.remove_tag(tag)`. -/
def tax_remove_tag (tax : Taxonomy) (tag : String) : Taxonomy :=
  tax.filter (fun p => tagOf p ≠ tag)

/-- Modelled from the spec: `Taxonomy.remove_overlaps(tag_list)` returns a
filtered list in which no kept destination overlaps another kept one. -/
def remove_overlaps (tax : Taxonomy) (l : List String) : List String :=
  l.foldl
    (fun acc d =>
      if acc.any (fun e => overlaps tax e d || overlaps tax d e) then acc
      else acc ++ [d])
    []

/-- A translation or expansion store: source tag to destination tags.
Modelled from the spec: `get_destinations(tag)` is empty for an absent
source and `add_rule(source, destinations, overwrite=True)` replaces any
previous rule for that source. -/
abbrev RuleStore := List (String × List String)

/-- Modelled from the spec: `get_dst` of a rule store. -/
def store_get (s : RuleStore) (k : String) : List String :=
  ((s.find? (fun e => e.1 = k)).map (fun e => e.2)).getD []

/-- Modelled from the spec: `add_rule(source, destinations, True)`. -/
def store_add (s : RuleStore) (k : String) (v : List String) : RuleStore :=
  (k, v) :: s.filter (fun e => e.1 ≠ k)

/-- The per-token occurrence map `src_map` (token to count). -/
abbrev SrcMap := List (String × ℕ)

/-- Lookup in `src_map`. -/
def smap_get (m : SrcMap) (k : String) : Option ℕ :=
  (m.find? (fun e => e.1 = k)).map (fun e => e.2)

/-- Overwriting update of `src_map` (`self.src_map[k] = v`). -/
def smap_put (m : SrcMap) (k : String) (v : ℕ) : SrcMap :=
  (k, v) :: m.filter (fun e => e.1 ≠ k)

/-- The mutable knowledge-base state of an `Update` object:
`_out_taxonomy`, `_out_translation`, `_out_expansion` and `src_map`. -/
structure KB where
  tax : Taxonomy
  transl : RuleStore
  expn : RuleStore
  src_map : SrcMap
deriving DecidableEq

/-- `Update.is_weak_rel`: joint count below `n` or the t1-given-t2 ratio
below `t`. -/
def is_weak_rel (n : ℕ) (t : ℚ) (rel : Relation) : Bool :=
  rel.nalias_num < n || rel.talias_num < t

/-- `Update.is_blacklisted_rel`: either tag is in the platform-tag
blacklist drawn from the taxonomy. -/
def is_blacklisted_rel (blist : List String) (rel : Relation) : Bool :=
  rel.t1 ∈ blist || rel.t2 ∈ blist

/-- Python's `sorted` on destination lists, used by `is_known_rel`. -/
def sortStr (l : List String) : List String :=
  l.insertionSort (fun a b => a ≤ b)

/-- `Update.is_known_rel`: the early-return chain of the source. -/
def is_known_rel (kb : KB) (rel : Relation) : Bool :=
  if overlaps kb.tax rel.t1 rel.t2 then true
  else if rel.t2 ∈ store_get kb.expn rel.t1 ∨ rel.t1 ∈ store_get kb.expn rel.t2 then true
  else if rel.t2 ∈ sortStr (store_get kb.transl rel.t1) ∨
      rel.t1 ∈ sortStr (store_get kb.transl rel.t2) then true
  else if sortStr (store_get kb.transl rel.t1) ≠ [] ∧
      sortStr (store_get kb.transl rel.t1) = sortStr (store_get kb.transl rel.t2) then true
  else false

/-- `Update.add_tag(name, path)`: add to the taxonomy only when `name` has
no translation rule. -/
def add_tag (kb : KB) (name : String) (path : TaxPath) : KB :=
  if store_get kb.transl name = [] then { kb with tax := tax_add_tag kb.tax path }
  else kb

/-- The `new_src` selection at the top of `Update.add_expansion`: the
first translation destination of `src` when `src` is an alias, otherwise
`src` itself. -/
def resolved_src (kb : KB) (src : String) : String :=
  match store_get kb.transl src with
  | [] => src
  | d :: _ => d

/-- `Update.add_expansion(src, dst_l)`: resolve the source through the
translation store, merge with the existing destinations for `src` (if
any) removing taxonomy overlaps, and overwrite the rule.  When `src` has
no existing expansion rule the source commits `dst_l` without an
overlap-removal step. -/
def add_expansion (kb : KB) (src : String) (dst_l : List String) : KB :=
  let new_src := resolved_src kb src
  let edst := store_get kb.expn src
  if edst = [] then { kb with expn := store_add kb.expn new_src dst_l }
  else
    let target_l := remove_overlaps kb.tax (edst ++ dst_l)
    { kb with expn := store_add kb.expn new_src target_l }

/-- The target-selection loop at the top of `Update.add_alias`: when the
source already has translation destinations, prefer (the last) one whose
stored `src_map` count exceeds the destination's count.  The source
compares the raw count strings it stored (`cnt > cnt_max` on `str`s,
raising `TypeError` when `e` is absent, since `get(e, 0)` yields the
`int` 0) — the model compares the parsed counts and skips absent entries.
`cnt_max` is fixed at `dst`'s count and never updated inside the loop,
exactly as in the source. -/
def alias_target (kb : KB) (src dst : String) : String :=
  let tr_src := store_get kb.transl src
  if tr_src = [] then dst
  else
    let cnt_max := (smap_get kb.src_map dst).getD 0
    tr_src.foldl
      (fun tgt e =>
        match smap_get kb.src_map e with
        | some cnt => if cnt_max < cnt then e else tgt
        | none => tgt)
      dst

/-- `Update.add_alias(src, dst, dst_prefix)`: select the target, register
`dst` in the taxonomy when it has no translation rule (otherwise reuse
its destinations), remove `src` from the taxonomy, and overwrite the
translation rule for `src`. -/
def add_alias (kb : KB) (src dst : String) (pfx : TaxPath) : KB :=
  let target := alias_target kb src dst
  let tr_dst := store_get kb.transl dst
  let kb1 :=
    if tr_dst = [] then { kb with tax := tax_add_tag kb.tax (pfx ++ [dst]) }
    else kb
  let target_l := if tr_dst = [] then [target] else tr_dst
  { kb1 with
      tax := tax_remove_tag kb1.tax src,
      transl := store_add kb1.transl src target_l }

/-- `Update.process_relation`, with the threshold `t` (the source reads
`args.t` here; see the header note).  Returns the source's result code
(1: mutation, 0: defer, -1: contradiction warning) and the updated
knowledge base. -/
def process_relation (t : ℚ) (kb : KB) (rel : Relation) : Int × KB :=
  let t1 := rel.t1
  let t2 := rel.t2
  let pc1 := get_info kb.tax rel.t1
  let pc2 := get_info kb.tax rel.t2
  let p1 := pc1.1
  let c1 := pc1.2
  let p2 := pc2.1
  let c2 := pc2.2
  if rel.tinv_alias_num ≥ t then
    if c1 ≠ Cat.UNK ∧ c2 = Cat.UNK then (1, add_alias kb t1 t2 p1.dropLast)
    else if c1 = Cat.UNK ∧ c2 ≠ Cat.UNK then (1, add_alias kb t1 t2 p2.dropLast)
    else if c1 = Cat.UNK ∧ c2 = Cat.UNK then (1, add_alias kb t1 t2 ["FAM"])
    else if c1 = c2 then (1, add_alias kb t1 t2 p1.dropLast)
    else (-1, kb)
  else if c1 = Cat.UNK ∧ c2 = Cat.FAM then (1, add_alias kb t1 t2 ["FAM"])
  else if c1 = Cat.UNK ∧ c2 = Cat.CLASS then (0, add_tag kb t1 ["FAM", t1])
  else if c1 = Cat.UNK ∧ c2 = Cat.BEH then (0, add_tag kb t1 ["FAM", t1])
  else if c1 = Cat.UNK ∧ c2 = Cat.FILE then (1, add_tag kb t1 (p2 ++ [t1]))
  else if c1 = Cat.UNK ∧ c2 = Cat.UNK then (1, add_alias kb t1 t2 ["FAM"])
  else if c1 = Cat.FAM ∧ c2 = Cat.UNK then (1, add_alias kb t1 t2 ["FAM"])
  else if c1 = Cat.FILE ∧ c2 = Cat.UNK then (1, add_alias kb t1 t2 p1.dropLast)
  else if c1 = Cat.FAM ∧ c2 = Cat.FAM then (1, add_alias kb t1 t2 p2.dropLast)
  else if c2 = Cat.UNK then (0, kb)
  else (0, kb)

/-- The threshold expression `args.t` as the source resolves it: the
module `avclass.update` defines no global `args` (it is a local of
`main()`), so the lookup finds nothing. -/
def argsGlobalT : Option ℚ := none

/-- `process_relation` as written: the comparison on line 232 evaluates
`args.t` first; with no global `args`, the call raises `NameError`
(modelled as `none`) before reaching any branch. -/
def process_relation_asWritten (kb : KB) (rel : Relation) : Option (Int × KB) :=
  argsGlobalT.map (fun t => process_relation t kb rel)

/-- `Update.is_expansion_rel`. -/
def is_expansion_rel (kb : KB) (rel : Relation) : Bool :=
  let c1 := get_category kb.tax rel.t1
  let c2 := get_category kb.tax rel.t2
  decide ((c1 = Cat.FAM ∧ c2 ≠ c1 ∧ c2 ≠ Cat.UNK) ∨
    (c1 = Cat.CLASS ∧ (c2 = Cat.FILE ∨ c2 = Cat.BEH)) ∨
    (c1 = Cat.UNK ∧ (c2 = Cat.BEH ∨ c2 = Cat.CLASS)))

/-- `Update.find_expansions`: one scan of the remaining relations,
applying `add_expansion` to each expansion relation whose `t1` is not a
translation source, and removing the resolved relations from the set. -/
def find_expansions (kb : KB) : List Relation → KB × List Relation
  | [] => (kb, [])
  | rel :: rest =>
      if store_get kb.transl rel.t1 ≠ [] then
        let r := find_expansions kb rest
        (r.1, rel :: r.2)
      else if is_expansion_rel kb rel then
        find_expansions (add_expansion kb rel.t1 [rel.t2]) rest
      else
        let r := find_expansions kb rest
        (r.1, rel :: r.2)

/-- One pass of the inner `while self.rel_set` loop of `Update.run`:
known relations are dropped, every other relation is classified; a
nonzero result is counted and dropped, a zero result is deferred into the
next working set.  Returns the state, the deferred set and `cnt`. -/
def passOnce (t : ℚ) : KB → List Relation → KB × List Relation × ℕ
  | kb, [] => (kb, [], 0)
  | kb, rel :: rest =>
      if is_known_rel kb rel then passOnce t kb rest
      else
        let rkb := process_relation t kb rel
        let r := passOnce t rkb.2 rest
        if rkb.1 = 0 then (r.1, rel :: r.2.1, r.2.2)
        else (r.1, r.2.1, r.2.2 + 1)

/-- The outer fixed-point loop of `Update.run`, with explicit fuel
(`none` means the fuel ran out before the loop finished).  The returned
`ℕ` counts the executed passes; the loop exits when the working set is
empty or a pass counts zero processed relations. -/
def runLoop (t : ℚ) : ℕ → KB → List Relation → Option (KB × List Relation × ℕ)
  | 0, _, _ => none
  | fuel + 1, kb, rels =>
      match rels with
      | [] => some (kb, [], 0)
      | r :: rest =>
          let p := passOnce t kb (r :: rest)
          if p.2.2 = 0 then some (p.1, p.2.1, 1)
          else (runLoop t fuel p.1 p.2.1).map (fun o => (o.1, o.2.1, o.2.2 + 1))

/-- `Update.run`: the fixed-point loop followed by `find_expansions`.
The fuel `rels.length + 1` is sufficient (see the termination theorem).
The pass count of the loop is returned alongside the final state and the
surviving working set. -/
def runUpdate (t : ℚ) (kb : KB) (rels : List Relation) :
    Option (KB × List Relation × ℕ) :=
  (runLoop t (rels.length + 1) kb rels).map
    (fun o =>
      let fr := find_expansions o.1 o.2.1
      (fr.1, fr.2, o.2.2))

/-- `Update.read_relations` over already-parsed relation records (the
source additionally skips `#` comment lines and splits on tabs): weak and
blacklisted relations are dropped, every kept relation is added to the
working set and its two counts overwrite the `src_map` entries of its two
tokens (`t1` first, then `t2`). -/
def read_relations_aux (n : ℕ) (t : ℚ) (blist : List String) :
    List Relation → List Relation → SrcMap → List Relation × SrcMap
  | [], acc, m => (acc.reverse, m)
  | rel :: rest, acc, m =>
      if is_weak_rel n t rel then read_relations_aux n t blist rest acc m
      else if is_blacklisted_rel blist rel then read_relations_aux n t blist rest acc m
      else
        read_relations_aux n t blist rest (rel :: acc)
          (smap_put (smap_put m rel.t1 rel.t1_num) rel.t2 rel.t2_num)

/-- `Update.read_relations` on a list of parsed lines, returning the
working set and the resulting `src_map`. -/
def read_relations (n : ℕ) (t : ℚ) (blist : List String) (lines : List Relation) :
    List Relation × SrcMap :=
  read_relations_aux n t blist lines [] []


/-! ### Specification-side predicates and quantities -/

/-- The known-relation characterization of the spec: taxonomy overlap,
an expansion link in either direction, a translation link in either
direction, or a shared non-empty translation destination set. -/
def specKnownRel (kb : KB) (rel : Relation) : Prop :=
  overlaps kb.tax rel.t1 rel.t2 = true
  ∨ (rel.t2 ∈ store_get kb.expn rel.t1 ∨ rel.t1 ∈ store_get kb.expn rel.t2)
  ∨ (rel.t2 ∈ store_get kb.transl rel.t1 ∨ rel.t1 ∈ store_get kb.transl rel.t2)
  ∨ (store_get kb.transl rel.t1 ≠ [] ∧
      (store_get kb.transl rel.t1 : Multiset String) =
        (store_get kb.transl rel.t2 : Multiset String))

/-- All ordered pairs of distinct positions in `l` are non-overlapping in
the taxonomy sense, in both argument orders. -/
abbrev PairwiseNonOverlapping (tax : Taxonomy) (l : List String) : Prop :=
  l.Pairwise (fun a b => overlaps tax a b = false ∧ overlaps tax b a = false)

/-- No tag is simultaneously a taxonomy entry and a translation source
(i.e. has a non-empty translation destination list). -/
def SourceFree (kb : KB) : Prop :=
  ∀ tag p, tax_lookup kb.tax tag = some p → store_get kb.transl tag = []

/-- The distinct tags appearing in the relations whose category is `UNK`
in the given (initial) knowledge base. -/
def initUnkTags (kb : KB) (rels : List Relation) : List String :=
  (((rels.map (fun r => r.t1)) ++ rels.map (fun r => r.t2)).dedup).filter
    (fun x => get_category kb.tax x = Cat.UNK)

/-- The maximum occurrence count observed for a token across a list of
relations (0 when the token never occurs). -/
def specMaxObserved (rels : List Relation) (tok : String) : ℕ :=
  rels.foldl
    (fun acc r =>
      let a1 := if r.t1 = tok then max acc r.t1_num else acc
      if r.t2 = tok then max a1 r.t2_num else a1)
    0

/-- The occurrence count for a token recorded by the last relation that
mentions it, scanning the list from the end (a relation's `t2` field wins
over its `t1` field, because `src_map[t2]` is assigned second). -/
def lastObserved (rels : List Relation) (tok : String) : Option ℕ :=
  rels.reverse.findSome?
    (fun r =>
      if r.t2 = tok then some r.t2_num
      else if r.t1 = tok then some r.t1_num
      else none)

/-! ### Concrete rationals and scenarios used in witnesses and counterexamples -/

/-- The rational 0.96, in lowest terms. -/
def q96 : ℚ := ⟨24, 25, by decide, by decide⟩

/-- The rational 0.95, in lowest terms. -/
def q95 : ℚ := ⟨19, 20, by decide, by decide⟩

/-- The rational 0.94 (the default CLI threshold), in lowest terms. -/
def q94 : ℚ := ⟨47, 50, by decide, by decide⟩

/-- The rational 0.70, in lowest terms. -/
def q70 : ℚ := ⟨7, 10, by decide, by decide⟩

theorem q96_eq : q96 = 0.96 := by
  rw [q96, Rat.mk'_eq_divInt, Rat.divInt_eq_div]; norm_num

theorem q95_eq : q95 = 0.95 := by
  rw [q95, Rat.mk'_eq_divInt, Rat.divInt_eq_div]; norm_num

theorem q94_eq : q94 = 0.94 := by
  rw [q94, Rat.mk'_eq_divInt, Rat.divInt_eq_div]; norm_num

theorem q70_eq : q70 = 0.70 := by
  rw [q70, Rat.mk'_eq_divInt, Rat.divInt_eq_div]; norm_num

/-! ### Association-list lookup lemmas -/

theorem find?_fst_filter {β : Type} (l : List (String × β)) (k j : String)
    (h : j ≠ k) :
    (l.filter (fun e => e.1 ≠ k)).find? (fun e => e.1 = j) =
      l.find? (fun e => e.1 = j) := by
  induction l with
  | nil => rfl
  | cons a l ih =>
      rw [List.filter_cons]
      by_cases hk : a.1 = k
      · rw [if_neg (by simpa using hk)]
        rw [List.find?_cons_of_neg _ (by simpa using fun hc : a.1 = j => h (hc.symm.trans hk))]
        exact ih
      · rw [if_pos (by simpa using hk)]
        by_cases hj : a.1 = j
        · rw [List.find?_cons_of_pos _ (by simpa using hj),
            List.find?_cons_of_pos _ (by simpa using hj)]
        · rw [List.find?_cons_of_neg _ (by simpa using hj),
            List.find?_cons_of_neg _ (by simpa using hj)]
          exact ih

theorem find?_fst_filter_self {β : Type} (l : List (String × β)) (k : String) :
    (l.filter (fun e => e.1 ≠ k)).find? (fun e => e.1 = k) = none := by
  induction l with
  | nil => rfl
  | cons a l ih =>
      rw [List.filter_cons]
      by_cases hk : a.1 = k
      · rw [if_neg (by simpa using hk)]; exact ih
      · rw [if_pos (by simpa using hk)]
        rw [List.find?_cons_of_neg _ (by simpa using hk)]
        exact ih

theorem find?_tagOf_filter (l : List TaxPath) (k j : String) (h : j ≠ k) :
    (l.filter (fun p => tagOf p ≠ k)).find? (fun p => tagOf p = j) =
      l.find? (fun p => tagOf p = j) := by
  induction l with
  | nil => rfl
  | cons a l ih =>
      rw [List.filter_cons]
      by_cases hk : tagOf a = k
      · rw [if_neg (by simpa using hk)]
        rw [List.find?_cons_of_neg _
          (by simpa using fun hc : tagOf a = j => h (hc.symm.trans hk))]
        exact ih
      · rw [if_pos (by simpa using hk)]
        by_cases hj : tagOf a = j
        · rw [List.find?_cons_of_pos _ (by simpa using hj),
            List.find?_cons_of_pos _ (by simpa using hj)]
        · rw [List.find?_cons_of_neg _ (by simpa using hj),
            List.find?_cons_of_neg _ (by simpa using hj)]
          exact ih

theorem find?_tagOf_filter_self (l : List TaxPath) (k : String) :
    (l.filter (fun p => tagOf p ≠ k)).find? (fun p => tagOf p = k) = none := by
  induction l with
  | nil => rfl
  | cons a l ih =>
      rw [List.filter_cons]
      by_cases hk : tagOf a = k
      · rw [if_neg (by simpa using hk)]; exact ih
      · rw [if_pos (by simpa using hk)]
        rw [List.find?_cons_of_neg _ (by simpa using hk)]
        exact ih

theorem store_get_add (s : RuleStore) (k : String) (v : List String) (j : String) :
    store_get (store_add s k v) j = if j = k then v else store_get s j := by
  by_cases h : j = k
  · subst h
    unfold store_get store_add
    rw [List.find?_cons_of_pos _ (by simp)]
    simp
  · unfold store_get store_add
    rw [List.find?_cons_of_neg _ (by simpa using fun hc : k = j => h hc.symm)]
    rw [find?_fst_filter s k j h, if_neg h]

theorem smap_get_put (m : SrcMap) (k : String) (v : ℕ) (j : String) :
    smap_get (smap_put m k v) j = if j = k then some v else smap_get m j := by
  by_cases h : j = k
  · subst h
    unfold smap_get smap_put
    rw [List.find?_cons_of_pos _ (by simp)]
    simp
  · unfold smap_get smap_put
    rw [List.find?_cons_of_neg _ (by simpa using fun hc : k = j => h hc.symm)]
    rw [find?_fst_filter m k j h, if_neg h]

theorem tax_lookup_add (tax : Taxonomy) (p : TaxPath) (tag : String) :
    tax_lookup (tax_add_tag tax p) tag =
      if tagOf p = tag then some p else tax_lookup tax tag := by
  by_cases h : tagOf p = tag
  · unfold tax_lookup tax_add_tag
    rw [List.find?_cons_of_pos _ (by simpa using h), if_pos h]
  · unfold tax_lookup tax_add_tag
    rw [List.find?_cons_of_neg _ (by simpa using h), if_neg h]
    exact find?_tagOf_filter tax (tagOf p) tag (fun hc => h hc.symm)

theorem tax_lookup_remove (tax : Taxonomy) (s tag : String) :
    tax_lookup (tax_remove_tag tax s) tag =
      if tag = s then none else tax_lookup tax tag := by
  by_cases h : tag = s
  · subst h
    unfold tax_lookup tax_remove_tag
    rw [if_pos rfl]
    exact find?_tagOf_filter_self tax tag
  · unfold tax_lookup tax_remove_tag
    rw [if_neg h]
    exact find?_tagOf_filter tax s tag h

theorem tagOf_append_singleton (l : List String) (a : String) : tagOf (l ++ [a]) = a := by
  simp [tagOf, List.getLastD_eq_getLast?, List.getLast?_concat]

/-! ### Sorting lemmas for `is_known_rel` -/

theorem sortStr_perm (l : List String) : (sortStr l).Perm l :=
  List.perm_insertionSort (fun a b => a ≤ b) l

theorem mem_sortStr (a : String) (l : List String) : a ∈ sortStr l ↔ a ∈ l :=
  (sortStr_perm l).mem_iff

theorem sortStr_eq_nil (l : List String) : sortStr l = [] ↔ l = [] := by
  constructor
  · intro h; exact (h ▸ sortStr_perm l).symm.eq_nil
  · intro h; subst h; rfl

theorem sortStr_eq_sortStr (l1 l2 : List String) :
    sortStr l1 = sortStr l2 ↔ (l1 : Multiset String) = (l2 : Multiset String) := by
  constructor
  · intro h
    exact Multiset.coe_eq_coe.mpr ((sortStr_perm l1).symm.trans (h ▸ sortStr_perm l2))
  · intro h
    have p : l1.Perm l2 := Multiset.coe_eq_coe.mp h
    have p1 := List.perm_insertionSort (fun a b : String => a ≤ b) l1
    have p2 := List.perm_insertionSort (fun a b : String => a ≤ b) l2
    have s1 := List.sorted_insertionSort (fun a b : String => a ≤ b) l1
    have s2 := List.sorted_insertionSort (fun a b : String => a ≤ b) l2
    exact List.eq_of_perm_of_sorted (p1.trans (p.trans p2.symm)) s1 s2

/-! ### Concrete scenarios -/

/-- Knowledge base with `FAM:upatre` and `UNK:UNK_A` in the taxonomy and
both tokens recorded in `src_map` with count 500. -/
def upatreKB : KB :=
  ⟨[["FAM", "upatre"], ["UNK", "UNK_A"]], [], [], [("upatre", 500), ("UNK_A", 500)]⟩

/-- The relation of the spec scenario: `t1 = upatre`, `t2 = UNK_A`, both
directional ratios 0.96. -/
def upatreRel : Relation := ⟨"upatre", "UNK_A", 500, 500, 480, q96, q96⟩

/-- Taxonomy in which `a` (path `CLASS:a`) is an ancestor of `b`
(path `CLASS:a:b`), so `overlaps a b` holds. -/
def overlapKB : KB := ⟨[["CLASS", "a"], ["CLASS", "a", "b"]], [], [], []⟩

/-- Same overlapping taxonomy, with an existing expansion rule for `s`. -/
def expnKB : KB := ⟨[["CLASS", "a"], ["CLASS", "a", "b"]], [], [("s", ["x"])], []⟩

/-- Taxonomy with a FAM, a CLASS and two BEH tags, used for the
contradiction and deferral scenarios. -/
def contrKB : KB := ⟨[["FAM", "f"], ["CLASS", "c"], ["BEH", "x"], ["BEH", "y"]], [], [], []⟩

/-- A bidirectionally strong relation between `FAM:f` and `CLASS:c`
(ratios 0.95 against threshold 0.94): a category contradiction. -/
def contrRel : Relation := ⟨"f", "c", 100, 100, 50, q95, q95⟩

/-- A weakly related BEH/BEH pair (ratios 0.70): always deferred. -/
def deferRel : Relation := ⟨"x", "y", 100, 100, 50, q70, q70⟩

/-- Knowledge base with two FAM tags and no UNK tag anywhere. -/
def famPairKB : KB := ⟨[["FAM", "a"], ["FAM", "b"]], [], [], [("a", 100), ("b", 100)]⟩

/-- A bidirectionally strong FAM/FAM relation (ratios 0.96). -/
def famPairRel : Relation := ⟨"a", "b", 100, 100, 50, q96, q96⟩

/-- Two loader lines sharing token `A`: the first reports count 500 for
`A`, the second (later) reports count 100. -/
def loadRelA1 : Relation := ⟨"A", "B", 500, 300, 480, q96, q96⟩

/-- Second loader line for token `A`, with the smaller count 100. -/
def loadRelA2 : Relation := ⟨"A", "C", 100, 200, 50, q95, q95⟩

/-! ### C1 -/

/-- C1: the spec claims no exception escapes `process_relation`.  As
written, the source evaluates `float(rel.tinv_alias_num) >= args.t`
before any branch; `args` is not a module-level name (it is a local of
`main()`), so every call raises `NameError` — modelled as `none` — for
every knowledge base and every relation, instead of degrading to a skip. -/
theorem claim_C1_always_raises (kb : KB) (rel : Relation) :
    process_relation_asWritten kb rel = none := rfl

/-! ### C2 -/

/-- C2, counterexample: classifying `(t1 = upatre [FAM], t2 = UNK_A [UNK],
both ratios 0.96 ≥ 0.94)` does NOT make `UNK_A` a translation source
(its destination list stays empty), and `UNK_A` is not removed from the
taxonomy — it is (re-)registered there under `FAM:UNK_A`.  The claimed
direction of the alias is therefore false on the code. -/
theorem claim_C2_counterexample :
    store_get (process_relation q94 upatreKB upatreRel).2.transl "UNK_A" = [] ∧
    tax_lookup (process_relation q94 upatreKB upatreRel).2.tax "UNK_A" =
      some ["FAM", "UNK_A"] := by decide

/-- C2, amended: the alias is installed in the direction t1 → t2:
`upatre` becomes the translation source with destination list
`[UNK_A]`, `upatre` is removed from the taxonomy, `FAM:UNK_A` is added
to the taxonomy, and the classification result is 1 (mutation). -/
theorem claim_C2_amended :
    process_relation q94 upatreKB upatreRel =
      (1, ⟨[["FAM", "UNK_A"]], [("upatre", ["UNK_A"])], [],
        [("upatre", 500), ("UNK_A", 500)]⟩) := by decide

/-! ### C3 -/

theorem remove_overlaps_aux (tax : Taxonomy) :
    ∀ (l acc : List String), PairwiseNonOverlapping tax acc →
      PairwiseNonOverlapping tax
        (l.foldl
          (fun acc d =>
            if acc.any (fun e => overlaps tax e d || overlaps tax d e) then acc
            else acc ++ [d])
          acc)
  | [], _, h => by simpa using h
  | d :: l, acc, h => by
      rw [List.foldl_cons]
      by_cases hc : acc.any (fun e => overlaps tax e d || overlaps tax d e) = true
      · rw [if_pos hc]
        exact remove_overlaps_aux tax l acc h
      · rw [if_neg hc]
        apply remove_overlaps_aux tax l
        refine List.pairwise_append.mpr ⟨h, List.pairwise_singleton _ _, ?_⟩
        intro a ha b hb
        have hb' : b = d := List.mem_singleton.mp hb
        subst hb'
        have h1 : overlaps tax a b = false := by
          cases hov : overlaps tax a b with
          | false => rfl
          | true => exact absurd (List.any_eq_true.mpr ⟨a, ha, by rw [hov]; simp⟩) hc
        have h2 : overlaps tax b a = false := by
          cases hov : overlaps tax b a with
          | false => rfl
          | true => exact absurd (List.any_eq_true.mpr ⟨a, ha, by rw [hov]; simp⟩) hc
        exact ⟨h1, h2⟩

/-- `remove_overlaps` always produces a pairwise non-overlapping list. -/
theorem remove_overlaps_pairwise (tax : Taxonomy) (l : List String) :
    PairwiseNonOverlapping tax (remove_overlaps tax l) :=
  remove_overlaps_aux tax l [] List.Pairwise.nil

/-- C3, counterexample: with `CLASS:a` an ancestor of `CLASS:a:b` in the
taxonomy and no existing expansion rule for `s`,
`add_expansion s [a, b]` commits the destination set `[a, b]` without an
overlap-removal step, so the committed destinations for the source are
NOT pairwise non-overlapping. -/
theorem claim_C3_counterexample :
    ¬PairwiseNonOverlapping (add_expansion overlapKB "s" ["a", "b"]).tax
      (store_get (add_expansion overlapKB "s" ["a", "b"]).expn
        (resolved_src overlapKB "s")) := by decide

/-- C3, amended: after `add_expansion src dst_l`, the committed
destination set for the rule's (translation-resolved) source is pairwise
non-overlapping, provided that `dst_l` itself is pairwise non-overlapping
whenever `src` has no existing expansion rule (the engine only ever
passes singleton `dst_l`, for which this holds trivially); when a rule
exists, the merged set goes through `remove_overlaps` and the invariant
holds unconditionally. -/
theorem claim_C3_amended (kb : KB) (src : String) (dst_l : List String)
    (h : store_get kb.expn src = [] → PairwiseNonOverlapping kb.tax dst_l) :
    PairwiseNonOverlapping kb.tax
      (store_get (add_expansion kb src dst_l).expn (resolved_src kb src)) := by
  by_cases hd : store_get kb.expn src = []
  · have hter : (add_expansion kb src dst_l).expn =
        store_add kb.expn (resolved_src kb src) dst_l := by
      simp only [add_expansion, if_pos hd]
    rw [hter, store_get_add, if_pos rfl]
    exact h hd
  · have hter : (add_expansion kb src dst_l).expn =
        store_add kb.expn (resolved_src kb src)
          (remove_overlaps kb.tax (store_get kb.expn src ++ dst_l)) := by
      simp only [add_expansion, if_neg hd]
    rw [hter, store_get_add, if_pos rfl]
    exact remove_overlaps_pairwise kb.tax _

/-- C3, witness for the amended theorem: a call with an existing rule for
`s` commits a destination set that went through overlap removal. -/
theorem claim_C3_witness :
    PairwiseNonOverlapping expnKB.tax
      (store_get (add_expansion expnKB "s" ["a", "b"]).expn (resolved_src expnKB "s")) :=
  claim_C3_amended expnKB "s" ["a", "b"] (fun hc => absurd hc (by decide))

/-! ### C4 and C5: pass structure and termination -/

theorem passOnce_length (t : ℚ) :
    ∀ (rels : List Relation) (kb : KB),
      (passOnce t kb rels).2.1.length + (passOnce t kb rels).2.2 ≤ rels.length
  | [], kb => by simp [passOnce]
  | rel :: rest, kb => by
      by_cases hk : is_known_rel kb rel = true
      · have ih := passOnce_length t rest kb
        simp only [passOnce, if_pos hk, List.length_cons]
        omega
      · have ih := passOnce_length t rest (process_relation t kb rel).2
        simp only [passOnce, if_neg hk, List.length_cons]
        by_cases hr : (process_relation t kb rel).1 = 0
        · rw [if_pos hr]
          dsimp only
          simp only [List.length_cons]
          omega
        · rw [if_neg hr]
          dsimp only
          omega

theorem runLoop_total (t : ℚ) :
    ∀ (fuel : ℕ) (kb : KB) (rels : List Relation), rels.length < fuel →
      ∃ kbf rf p, runLoop t fuel kb rels = some (kbf, rf, p) ∧ p ≤ rels.length
  | 0, _, rels, h => absurd h (Nat.not_lt_zero _)
  | fuel + 1, kb, rels, h => by
      cases rels with
      | nil => exact ⟨kb, [], 0, by simp [runLoop], Nat.le_refl 0⟩
      | cons r rest =>
          by_cases hc : (passOnce t kb (r :: rest)).2.2 = 0
          · refine ⟨(passOnce t kb (r :: rest)).1, (passOnce t kb (r :: rest)).2.1, 1, ?_, ?_⟩
            · simp only [runLoop]
              rw [if_pos hc]
            · simp [List.length_cons]
          · have hlen := passOnce_length t (r :: rest) kb
            have hle : (r :: rest).length ≤ fuel := Nat.lt_succ_iff.mp h
            have hlt : (passOnce t kb (r :: rest)).2.1.length < fuel := by
              have hcnt : 1 ≤ (passOnce t kb (r :: rest)).2.2 := Nat.one_le_iff_ne_zero.mpr hc
              omega
            obtain ⟨kbf, rf, p, heq, hp⟩ :=
              runLoop_total t fuel (passOnce t kb (r :: rest)).1 (passOnce t kb (r :: rest)).2.1 hlt
            refine ⟨kbf, rf, p + 1, ?_, ?_⟩
            · simp only [runLoop]
              rw [if_neg hc, heq]
              rfl
            · have hcnt : 1 ≤ (passOnce t kb (r :: rest)).2.2 := Nat.one_le_iff_ne_zero.mpr hc
              simp only [List.length_cons] at hlen hp ⊢
              omega

/-- C4, counterexample: processing `[contrRel, deferRel]` from `contrKB`,
the first pass applies ZERO knowledge-base mutations (the resulting state
is `contrKB` itself, because the category contradiction is dropped with
`-1` and the BEH/BEH relation is deferred), yet its counter is 1, so the
loop does not halt after that pass: a second pass runs (2 passes total).
This refutes both "dropped with a mutation counted" and "if a pass
performs no mutation ... the loop halts". -/
theorem claim_C4_counterexample :
    passOnce q94 contrKB [contrRel, deferRel] = (contrKB, [deferRel], 1) ∧
    runLoop q94 3 contrKB [contrRel, deferRel] = some (contrKB, [deferRel], 2) := by
  decide

/-- C4, amended: in every pass each relation is dropped as known, dropped
with the pass counter incremented (which happens when its classification
result is nonzero — a mutation OR a dropped category contradiction, which
mutates nothing), or deferred into the next working set; the loop halts
after a pass exactly when that pass's counter is zero (or the deferred
set is empty), not when the pass applied zero store mutations. -/
theorem claim_C4_amended (t : ℚ) (fuel : ℕ) (kb : KB) (rels : List Relation)
    (h : rels ≠ []) :
    ((passOnce t kb rels).2.2 = 0 →
      runLoop t (fuel + 1) kb rels =
        some ((passOnce t kb rels).1, (passOnce t kb rels).2.1, 1)) ∧
    ((passOnce t kb rels).2.2 ≠ 0 →
      runLoop t (fuel + 1) kb rels =
        (runLoop t fuel (passOnce t kb rels).1 (passOnce t kb rels).2.1).map
          (fun o => (o.1, o.2.1, o.2.2 + 1))) := by
  cases rels with
  | nil => exact absurd rfl h
  | cons r rest =>
      constructor
      · intro hc
        simp only [runLoop]
        rw [if_pos hc]
      · intro hc
        simp only [runLoop]
        rw [if_neg hc]

/-- C4, witness: a pass over the single always-deferred relation counts
zero processed relations, so the loop halts after one pass with the
deferred relation remaining. -/
theorem claim_C4_witness :
    runLoop q94 1 contrKB [deferRel] =
      some ((passOnce q94 contrKB [deferRel]).1, (passOnce q94 contrKB [deferRel]).2.1, 1) :=
  (claim_C4_amended q94 0 contrKB [deferRel] (by decide)).1 (by decide)

/-- C5, counterexample: a single strong FAM/FAM relation between two
taxonomy FAM tags involves no initially-UNK tag at all, yet `run()`
executes one pass (which merges the two families); 1 pass exceeds the
claimed bound of 0 (= number of initially-UNK tags in the relations). -/
theorem claim_C5_counterexample :
    (runUpdate q94 famPairKB [famPairRel]).map (fun o => o.2.2) = some 1 ∧
    initUnkTags famPairKB [famPairRel] = [] := by decide

/-- C5, amended: for every finite relation list and knowledge base,
`run()` terminates — the fixed-point loop returns within
`rels.length + 1` units of fuel — and the number of executed passes is at
most the number of loaded relations (each continued pass strictly shrinks
the working set).  The pass count is NOT bounded by the number of
initially-UNK tags. -/
theorem claim_C5_amended (t : ℚ) (kb : KB) (rels : List Relation) :
    ∃ kbf rf p, runUpdate t kb rels = some (kbf, rf, p) ∧ p ≤ rels.length := by
  obtain ⟨kbf, rf, p, heq, hp⟩ :=
    runLoop_total t (rels.length + 1) kb rels (Nat.lt_succ_self _)
  refine ⟨(find_expansions kbf rf).1, (find_expansions kbf rf).2, p, ?_, hp⟩
  unfold runUpdate
  rw [heq]
  rfl

/-! ### C7: loader filtering -/

theorem read_relations_aux_fst (n : ℕ) (t : ℚ) (bl : List String) :
    ∀ (l acc : List Relation) (m : SrcMap),
      (read_relations_aux n t bl l acc m).1 =
        acc.reverse ++
          l.filter (fun r => !is_weak_rel n t r && !is_blacklisted_rel bl r)
  | [], acc, m => by simp [read_relations_aux]
  | rel :: rest, acc, m => by
      by_cases hw : is_weak_rel n t rel = true
      · have hstep : read_relations_aux n t bl (rel :: rest) acc m =
            read_relations_aux n t bl rest acc m := by
          simp only [read_relations_aux, if_pos hw]
        rw [hstep, read_relations_aux_fst n t bl rest acc m, List.filter_cons,
          if_neg (by simp [hw])]
      · by_cases hb : is_blacklisted_rel bl rel = true
        · have hstep : read_relations_aux n t bl (rel :: rest) acc m =
              read_relations_aux n t bl rest acc m := by
            simp only [read_relations_aux, if_neg hw, if_pos hb]
          rw [hstep, read_relations_aux_fst n t bl rest acc m, List.filter_cons,
            if_neg (by simp [hw, hb])]
        · have hstep : read_relations_aux n t bl (rel :: rest) acc m =
              read_relations_aux n t bl rest (rel :: acc)
                (smap_put (smap_put m rel.t1 rel.t1_num) rel.t2 rel.t2_num) := by
            simp only [read_relations_aux, if_neg hw, if_neg hb]
          rw [hstep, read_relations_aux_fst n t bl rest (rel :: acc) _, List.filter_cons,
            if_pos (by simp [hw, hb])]
          simp [List.reverse_cons, List.append_assoc]

/-- C7: a parsed relation is in the produced working set iff it is one of
the input lines, is not weak (joint count at least `n` and t1-given-t2
ratio at least `t`) and is not platform-blacklisted; all other parsed
relations are included. -/
theorem claim_C7_loader_filters (n : ℕ) (t : ℚ) (bl : List String)
    (lines : List Relation) (rel : Relation) :
    rel ∈ (read_relations n t bl lines).1 ↔
      rel ∈ lines ∧ is_weak_rel n t rel = false ∧ is_blacklisted_rel bl rel = false := by
  unfold read_relations
  rw [read_relations_aux_fst n t bl lines [] []]
  simp [List.mem_filter, Bool.and_eq_true, Bool.not_eq_true', and_assoc]

/-! ### C10: the `src_map` side effect of the loader -/

theorem lastObserved_cons (rel : Relation) (l : List Relation) (tok : String) :
    lastObserved (rel :: l) tok =
      (lastObserved l tok).or
        (if rel.t2 = tok then some rel.t2_num
         else if rel.t1 = tok then some rel.t1_num
         else none) := by
  unfold lastObserved
  rw [List.reverse_cons, List.findSome?_append]
  congr 1
  cases h : (if rel.t2 = tok then some rel.t2_num
      else if rel.t1 = tok then some rel.t1_num
      else none) with
  | none => simp [List.findSome?_cons, h]
  | some v => simp [List.findSome?_cons, h]

theorem smap_aux_last (n : ℕ) (t : ℚ) (bl : List String) :
    ∀ (l acc : List Relation) (m : SrcMap) (tok : String),
      smap_get (read_relations_aux n t bl l acc m).2 tok =
        (lastObserved
          (l.filter (fun r => !is_weak_rel n t r && !is_blacklisted_rel bl r)) tok).or
          (smap_get m tok)
  | [], acc, m, tok => by
      simp [read_relations_aux, lastObserved]
  | rel :: rest, acc, m, tok => by
      by_cases hw : is_weak_rel n t rel = true
      · have hstep : read_relations_aux n t bl (rel :: rest) acc m =
            read_relations_aux n t bl rest acc m := by
          simp only [read_relations_aux, if_pos hw]
        rw [hstep, smap_aux_last n t bl rest acc m tok, List.filter_cons,
          if_neg (by simp [hw])]
      · by_cases hb : is_blacklisted_rel bl rel = true
        · have hstep : read_relations_aux n t bl (rel :: rest) acc m =
              read_relations_aux n t bl rest acc m := by
            simp only [read_relations_aux, if_neg hw, if_pos hb]
          rw [hstep, smap_aux_last n t bl rest acc m tok, List.filter_cons,
            if_neg (by simp [hw, hb])]
        · have hstep : read_relations_aux n t bl (rel :: rest) acc m =
              read_relations_aux n t bl rest (rel :: acc)
                (smap_put (smap_put m rel.t1 rel.t1_num) rel.t2 rel.t2_num) := by
            simp only [read_relations_aux, if_neg hw, if_neg hb]
          rw [hstep, smap_aux_last n t bl rest (rel :: acc) _ tok, List.filter_cons,
            if_pos (by simp [hw, hb]), lastObserved_cons, Option.or_assoc]
          have hput : smap_get (smap_put (smap_put m rel.t1 rel.t1_num) rel.t2 rel.t2_num) tok =
              ((if rel.t2 = tok then some rel.t2_num
                else if rel.t1 = tok then some rel.t1_num
                else none).or (smap_get m tok)) := by
            rw [smap_get_put, smap_get_put]
            by_cases h2 : rel.t2 = tok
            · rw [if_pos h2.symm, if_pos h2]
              rfl
            · rw [if_neg (fun hc => h2 hc.symm), if_neg h2]
              by_cases h1 : rel.t1 = tok
              · rw [if_pos h1.symm, if_pos h1]
                rfl
              · rw [if_neg (fun hc => h1 hc.symm), if_neg h1]
                rfl
          rw [hput]

/-- C10, counterexample: token `A` occurs in two kept relations with
counts 500 (first line) and 100 (second line); the maximum observed count
is 500, but the produced `src_map` holds 100 — the most recent value, not
the maximum.  The claim that `src_map` holds the per-token maximum is
therefore false on the code. -/
theorem claim_C10_counterexample :
    specMaxObserved (read_relations 20 q94 [] [loadRelA1, loadRelA2]).1 "A" = 500 ∧
    smap_get (read_relations 20 q94 [] [loadRelA1, loadRelA2]).2 "A" ≠
      some (specMaxObserved (read_relations 20 q94 [] [loadRelA1, loadRelA2]).1 "A") := by
  decide

/-- C10, amended: after `read_relations`, `src_map` holds for each token
the count recorded by the LAST kept relation mentioning it (a relation's
`t2` count wins over its `t1` count because it is assigned second), not
the maximum across all kept relations; these stored values are the ones
`add_alias` later compares when preferring a destination.  (The source
stores the raw count strings and compares them with Python string
ordering; the model parses them to naturals at the load boundary.) -/
theorem claim_C10_amended (n : ℕ) (t : ℚ) (bl : List String)
    (lines : List Relation) (tok : String) :
    smap_get (read_relations n t bl lines).2 tok =
      lastObserved (read_relations n t bl lines).1 tok := by
  unfold read_relations
  rw [smap_aux_last n t bl lines [] [] tok, read_relations_aux_fst n t bl lines [] []]
  simp [smap_get, Option.or_none]

/-! ### C6: the known-relation test -/

theorem is_known_rel_iff (kb : KB) (rel : Relation) :
    is_known_rel kb rel = true ↔
      (overlaps kb.tax rel.t1 rel.t2 = true ∨
       (rel.t2 ∈ store_get kb.expn rel.t1 ∨ rel.t1 ∈ store_get kb.expn rel.t2) ∨
       (rel.t2 ∈ sortStr (store_get kb.transl rel.t1) ∨
        rel.t1 ∈ sortStr (store_get kb.transl rel.t2)) ∨
       (sortStr (store_get kb.transl rel.t1) ≠ [] ∧
        sortStr (store_get kb.transl rel.t1) = sortStr (store_get kb.transl rel.t2))) := by
  unfold is_known_rel
  by_cases h1 : overlaps kb.tax rel.t1 rel.t2 = true
  · rw [if_pos h1]
    exact iff_of_true rfl (Or.inl h1)
  · rw [if_neg h1]
    by_cases h2 : (rel.t2 ∈ store_get kb.expn rel.t1 ∨ rel.t1 ∈ store_get kb.expn rel.t2)
    · rw [if_pos h2]
      exact iff_of_true rfl (Or.inr (Or.inl h2))
    · rw [if_neg h2]
      by_cases h3 : (rel.t2 ∈ sortStr (store_get kb.transl rel.t1) ∨
          rel.t1 ∈ sortStr (store_get kb.transl rel.t2))
      · rw [if_pos h3]
        exact iff_of_true rfl (Or.inr (Or.inr (Or.inl h3)))
      · rw [if_neg h3]
        by_cases h4 : (sortStr (store_get kb.transl rel.t1) ≠ [] ∧
            sortStr (store_get kb.transl rel.t1) = sortStr (store_get kb.transl rel.t2))
        · rw [if_pos h4]
          exact iff_of_true rfl (Or.inr (Or.inr (Or.inr h4)))
        · rw [if_neg h4]
          exact iff_of_false (by simp)
            (fun hs => hs.elim h1 (fun hs2 => hs2.elim h2 (fun hs3 => hs3.elim h3 h4)))

/-- A relation between two tags of the overlapping-entries taxonomy
`overlapKB` (paths `CLASS:a` and `CLASS:a:b`), hence already known. -/
def knownRel : Relation := ⟨"a", "b", 100, 100, 50, q96, q96⟩

/-- C6: `is_known_rel` returns true iff (a) the taxonomy records the two
tags as overlapping entries, (b) an expansion rule links them in either
direction, (c) a translation rule links them in either direction, or
(d) `t1` has a non-empty translation destination set identical (as a
multiset) to `t2`'s; and a known relation is dropped by a pass with no
mutation of any store (state unchanged, relation not deferred). -/
theorem claim_C6_known_test (t : ℚ) (kb : KB) (rel : Relation) :
    (is_known_rel kb rel = true ↔ specKnownRel kb rel) ∧
    (is_known_rel kb rel = true → passOnce t kb [rel] = (kb, [], 0)) := by
  constructor
  · rw [is_known_rel_iff,
      mem_sortStr rel.t2 (store_get kb.transl rel.t1),
      mem_sortStr rel.t1 (store_get kb.transl rel.t2)]
    unfold specKnownRel
    rw [ne_eq, sortStr_eq_nil, sortStr_eq_sortStr, ← ne_eq]
  · intro hk
    simp [passOnce, hk]

/-- C6, witness: the relation `(a, b)` over `overlapKB` is known through
the taxonomy-overlap clause, and the pass drops it without mutation. -/
theorem claim_C6_witness :
    passOnce q94 overlapKB [knownRel] = (overlapKB, [], 0) ∧
    (is_known_rel overlapKB knownRel = true ↔ specKnownRel overlapKB knownRel) :=
  ⟨(claim_C6_known_test q94 overlapKB knownRel).2 (by decide),
   (claim_C6_known_test q94 overlapKB knownRel).1⟩

/-! ### C8: category contradictions -/

/-- C8: a bidirectionally strong relation (both ratios at least `t`)
between tags of two different non-UNK categories yields the warning
result `-1` with the knowledge base unchanged (no store is mutated), and
a pass over it drops it — it is never deferred into the next working set
(counted as processed when it was not short-circuited as known). -/
theorem claim_C8_contradiction (t : ℚ) (kb : KB) (rel : Relation)
    (_hta : rel.talias_num ≥ t) (hti : rel.tinv_alias_num ≥ t)
    (h1 : get_category kb.tax rel.t1 ≠ Cat.UNK)
    (h2 : get_category kb.tax rel.t2 ≠ Cat.UNK)
    (hne : get_category kb.tax rel.t1 ≠ get_category kb.tax rel.t2) :
    process_relation t kb rel = (-1, kb) ∧
    passOnce t kb [rel] = (kb, [], if is_known_rel kb rel then 0 else 1) := by
  have hpr : process_relation t kb rel = (-1, kb) := by
    simp only [process_relation]
    rw [if_pos hti, if_neg (fun hc => h2 hc.2), if_neg (fun hc => h1 hc.1),
      if_neg (fun hc => h1 hc.1),
      if_neg (show ¬((get_info kb.tax rel.t1).2 = (get_info kb.tax rel.t2).2) from hne)]
  refine ⟨hpr, ?_⟩
  by_cases hk : is_known_rel kb rel = true
  · simp [passOnce, hk]
  · simp [passOnce, hk, hpr]

/-- C8, witness: the strong `FAM:f`/`CLASS:c` relation with ratios 0.95
against threshold 0.94 is logged-and-dropped with no mutation. -/
theorem claim_C8_witness :
    process_relation q94 contrKB contrRel = (-1, contrKB) ∧
    passOnce q94 contrKB [contrRel] =
      (contrKB, [], if is_known_rel contrKB contrRel then 0 else 1) :=
  claim_C8_contradiction q94 contrKB contrRel (by decide) (by decide) (by decide)
    (by decide) (by decide)

/-! ### C9: no tag is both a taxonomy entry and a translation source -/

theorem add_alias_eq_of_nil (kb : KB) (src dst : String) (pfx : TaxPath)
    (hd : store_get kb.transl dst = []) :
    add_alias kb src dst pfx =
      { kb with
          tax := tax_remove_tag (tax_add_tag kb.tax (pfx ++ [dst])) src,
          transl := store_add kb.transl src [alias_target kb src dst] } := by
  simp only [add_alias, if_pos hd]

theorem add_alias_eq_of_ne (kb : KB) (src dst : String) (pfx : TaxPath)
    (hd : store_get kb.transl dst ≠ []) :
    add_alias kb src dst pfx =
      { kb with
          tax := tax_remove_tag kb.tax src,
          transl := store_add kb.transl src (store_get kb.transl dst) } := by
  simp only [add_alias, if_neg hd]

theorem sourceFree_add_tag (kb : KB) (name : String) (path : TaxPath)
    (hpath : tagOf path = name) (h : SourceFree kb) : SourceFree (add_tag kb name path) := by
  unfold add_tag
  by_cases hc : store_get kb.transl name = []
  · rw [if_pos hc]
    intro tag p hp
    rw [show ({ kb with tax := tax_add_tag kb.tax path } : KB).tax =
      tax_add_tag kb.tax path from rfl, tax_lookup_add] at hp
    by_cases ht : tagOf path = tag
    · have htn : tag = name := by rw [← ht, hpath]
      rw [htn]
      exact hc
    · rw [if_neg ht] at hp
      exact h tag p hp
  · rw [if_neg hc]
    exact h

theorem sourceFree_add_alias (kb : KB) (src dst : String) (pfx : TaxPath)
    (h : SourceFree kb) : SourceFree (add_alias kb src dst pfx) := by
  by_cases hd : store_get kb.transl dst = []
  · rw [add_alias_eq_of_nil kb src dst pfx hd]
    intro tag p hp
    rw [show ({ kb with
        tax := tax_remove_tag (tax_add_tag kb.tax (pfx ++ [dst])) src,
        transl := store_add kb.transl src [alias_target kb src dst] } : KB).tax =
      tax_remove_tag (tax_add_tag kb.tax (pfx ++ [dst])) src from rfl,
      tax_lookup_remove] at hp
    by_cases hts : tag = src
    · rw [if_pos hts] at hp
      exact absurd hp (by simp)
    · rw [if_neg hts] at hp
      rw [tax_lookup_add] at hp
      show store_get (store_add kb.transl src [alias_target kb src dst]) tag = []
      rw [store_get_add, if_neg hts]
      by_cases htd : tagOf (pfx ++ [dst]) = tag
      · have : tag = dst := by rw [← htd, tagOf_append_singleton]
        rw [this]
        exact hd
      · rw [if_neg htd] at hp
        exact h tag p hp
  · rw [add_alias_eq_of_ne kb src dst pfx hd]
    intro tag p hp
    rw [show ({ kb with
        tax := tax_remove_tag kb.tax src,
        transl := store_add kb.transl src (store_get kb.transl dst) } : KB).tax =
      tax_remove_tag kb.tax src from rfl, tax_lookup_remove] at hp
    by_cases hts : tag = src
    · rw [if_pos hts] at hp
      exact absurd hp (by simp)
    · rw [if_neg hts] at hp
      show store_get (store_add kb.transl src (store_get kb.transl dst)) tag = []
      rw [store_get_add, if_neg hts]
      exact h tag p hp

theorem add_expansion_tax (kb : KB) (src : String) (dst_l : List String) :
    (add_expansion kb src dst_l).tax = kb.tax := by
  simp only [add_expansion]
  split <;> rfl

theorem add_expansion_transl (kb : KB) (src : String) (dst_l : List String) :
    (add_expansion kb src dst_l).transl = kb.transl := by
  simp only [add_expansion]
  split <;> rfl

theorem sourceFree_add_expansion (kb : KB) (src : String) (dst_l : List String)
    (h : SourceFree kb) : SourceFree (add_expansion kb src dst_l) := by
  intro tag p hp
  rw [add_expansion_tax] at hp
  rw [add_expansion_transl]
  exact h tag p hp

theorem sourceFree_process_relation (t : ℚ) (kb : KB) (rel : Relation)
    (h : SourceFree kb) : SourceFree (process_relation t kb rel).2 := by
  have halias : ∀ pfx, SourceFree (add_alias kb rel.t1 rel.t2 pfx) :=
    fun pfx => sourceFree_add_alias kb rel.t1 rel.t2 pfx h
  have htag1 : SourceFree (add_tag kb rel.t1 ["FAM", rel.t1]) :=
    sourceFree_add_tag kb rel.t1 ["FAM", rel.t1] rfl h
  have htag2 : SourceFree (add_tag kb rel.t1 ((get_info kb.tax rel.t2).1 ++ [rel.t1])) :=
    sourceFree_add_tag kb rel.t1 _ (tagOf_append_singleton _ _) h
  simp only [process_relation]
  by_cases h0 : rel.tinv_alias_num ≥ t
  · rw [if_pos h0]
    by_cases hb1 : (get_info kb.tax rel.t1).2 ≠ Cat.UNK ∧ (get_info kb.tax rel.t2).2 = Cat.UNK
    · rw [if_pos hb1]; exact halias _
    · rw [if_neg hb1]
      by_cases hb2 : (get_info kb.tax rel.t1).2 = Cat.UNK ∧ (get_info kb.tax rel.t2).2 ≠ Cat.UNK
      · rw [if_pos hb2]; exact halias _
      · rw [if_neg hb2]
        by_cases hb3 : (get_info kb.tax rel.t1).2 = Cat.UNK ∧ (get_info kb.tax rel.t2).2 = Cat.UNK
        · rw [if_pos hb3]; exact halias _
        · rw [if_neg hb3]
          by_cases hb4 : (get_info kb.tax rel.t1).2 = (get_info kb.tax rel.t2).2
          · rw [if_pos hb4]; exact halias _
          · rw [if_neg hb4]; exact h
  · rw [if_neg h0]
    by_cases hc1 : (get_info kb.tax rel.t1).2 = Cat.UNK ∧ (get_info kb.tax rel.t2).2 = Cat.FAM
    · rw [if_pos hc1]; exact halias _
    · rw [if_neg hc1]
      by_cases hc2 : (get_info kb.tax rel.t1).2 = Cat.UNK ∧ (get_info kb.tax rel.t2).2 = Cat.CLASS
      · rw [if_pos hc2]; exact htag1
      · rw [if_neg hc2]
        by_cases hc3 : (get_info kb.tax rel.t1).2 = Cat.UNK ∧ (get_info kb.tax rel.t2).2 = Cat.BEH
        · rw [if_pos hc3]; exact htag1
        · rw [if_neg hc3]
          by_cases hc4 : (get_info kb.tax rel.t1).2 = Cat.UNK ∧ (get_info kb.tax rel.t2).2 = Cat.FILE
          · rw [if_pos hc4]; exact htag2
          · rw [if_neg hc4]
            by_cases hc5 : (get_info kb.tax rel.t1).2 = Cat.UNK ∧ (get_info kb.tax rel.t2).2 = Cat.UNK
            · rw [if_pos hc5]; exact halias _
            · rw [if_neg hc5]
              by_cases hc6 : (get_info kb.tax rel.t1).2 = Cat.FAM ∧ (get_info kb.tax rel.t2).2 = Cat.UNK
              · rw [if_pos hc6]; exact halias _
              · rw [if_neg hc6]
                by_cases hc7 : (get_info kb.tax rel.t1).2 = Cat.FILE ∧ (get_info kb.tax rel.t2).2 = Cat.UNK
                · rw [if_pos hc7]; exact halias _
                · rw [if_neg hc7]
                  by_cases hc8 : (get_info kb.tax rel.t1).2 = Cat.FAM ∧ (get_info kb.tax rel.t2).2 = Cat.FAM
                  · rw [if_pos hc8]; exact halias _
                  · rw [if_neg hc8]
                    by_cases hc9 : (get_info kb.tax rel.t2).2 = Cat.UNK
                    · rw [if_pos hc9]; exact h
                    · rw [if_neg hc9]; exact h

theorem sourceFree_passOnce (t : ℚ) :
    ∀ (rels : List Relation) (kb : KB), SourceFree kb → SourceFree (passOnce t kb rels).1
  | [], _, h => h
  | rel :: rest, kb, h => by
      by_cases hk : is_known_rel kb rel = true
      · simp only [passOnce, if_pos hk]
        exact sourceFree_passOnce t rest kb h
      · simp only [passOnce, if_neg hk]
        have h2 := sourceFree_passOnce t rest (process_relation t kb rel).2
          (sourceFree_process_relation t kb rel h)
        by_cases hr : (process_relation t kb rel).1 = 0
        · rw [if_pos hr]
          exact h2
        · rw [if_neg hr]
          exact h2

theorem sourceFree_runLoop (t : ℚ) :
    ∀ (fuel : ℕ) (kb : KB) (rels : List Relation) (out : KB × List Relation × ℕ),
      SourceFree kb → runLoop t fuel kb rels = some out → SourceFree out.1
  | 0, _, _, _, _, heq => by simp [runLoop] at heq
  | fuel + 1, kb, rels, out, h, heq => by
      cases rels with
      | nil =>
          simp only [runLoop] at heq
          cases heq
          exact h
      | cons r rest =>
          simp only [runLoop] at heq
          by_cases hc : (passOnce t kb (r :: rest)).2.2 = 0
          · rw [if_pos hc] at heq
            cases heq
            exact sourceFree_passOnce t (r :: rest) kb h
          · rw [if_neg hc] at heq
            rcases Option.map_eq_some'.mp heq with ⟨o, ho, hout⟩
            have hs := sourceFree_runLoop t fuel (passOnce t kb (r :: rest)).1
              (passOnce t kb (r :: rest)).2.1 o (sourceFree_passOnce t (r :: rest) kb h) ho
            rw [← hout]
            exact hs

theorem sourceFree_find_expansions :
    ∀ (rels : List Relation) (kb : KB), SourceFree kb → SourceFree (find_expansions kb rels).1
  | [], _, h => h
  | rel :: rest, kb, h => by
      simp only [find_expansions]
      by_cases h1 : store_get kb.transl rel.t1 ≠ []
      · rw [if_pos h1]
        exact sourceFree_find_expansions rest kb h
      · rw [if_neg h1]
        by_cases h2 : is_expansion_rel kb rel = true
        · rw [if_pos h2]
          exact sourceFree_find_expansions rest (add_expansion kb rel.t1 [rel.t2])
            (sourceFree_add_expansion _ _ _ h)
        · rw [if_neg h2]
          exact sourceFree_find_expansions rest kb h

/-- C9: a complete run (`run()` — the fixed-point loop followed by
`find_expansions` — together with the mutation operations it invokes)
preserves the invariant that no tag is simultaneously a taxonomy entry
and a translation source: `add_alias` removes the alias source from the
taxonomy when installing its rule and only registers a destination tag
that has no translation rule, and `add_tag` refuses to add a tag that is
already a translation source. -/
theorem claim_C9_invariant (t : ℚ) (kb : KB) (rels : List Relation)
    (out : KB × List Relation × ℕ) (h : SourceFree kb)
    (heq : runUpdate t kb rels = some out) : SourceFree out.1 := by
  unfold runUpdate at heq
  rcases Option.map_eq_some'.mp heq with ⟨o, ho, hout⟩
  have h1 := sourceFree_runLoop t (rels.length + 1) kb rels o h ho
  have h2 := sourceFree_find_expansions o.2.1 o.1 h1
  rw [← hout]
  exact h2

/-- C9, witness: running the strong FAM/FAM alias scenario from a
source-free knowledge base yields a state in which the alias source `a`
is no longer a taxonomy entry. -/
theorem claim_C9_witness :
    SourceFree (⟨[["FAM", "b"]], [("a", ["b"])], [], [("a", 100), ("b", 100)]⟩ : KB) :=
  claim_C9_invariant q94 famPairKB [famPairRel]
    (⟨[["FAM", "b"]], [("a", ["b"])], [], [("a", 100), ("b", 100)]⟩, [], 1)
    (fun _ _ _ => rfl) (by decide)
